import Mathlib

/-!
Shallow embedding of `src/babel-auto-break.ts`, a Babel plugin that rewrites
every loop (`for`, `while`, `do-while`) to self-monitor elapsed wall-clock
time and break out once a configured timeout is exceeded.

The AST below mirrors the Babel node shapes the plugin constructs and
inspects.  The host parser (`babel.transform(code, { ast: true })`) is an
external collaborator and is modelled as an abstract capability
`parse : String → Option Stmt` returning the first top-level statement of the
re-parsed program (`transform(...)?.ast?.program.body[0]`).
-/

namespace AutoBreak

/-- Start position of a node (`loc.start`); each coordinate may be absent. -/
structure SrcPos where
  line : Option Int
  column : Option Int
deriving DecidableEq

mutual

/-- JavaScript expressions, restricted to the node kinds the plugin builds,
inspects, or returns. -/
inductive Expr where
  | numericLiteral (value : Int)
  | stringLiteral (value : String)
  | identifier (name : String)
  | memberExpression (object : Expr) (property : Expr)
  | binaryExpression (op : String) (left : Expr) (right : Expr)
  | callExpression (callee : Expr) (args : List Expr)
  | arrowFunctionExpression (params : List String) (body : Expr)
  | functionExpression (id : Option String) (params : List String) (body : List Stmt)

/-- Initializer slot of a `for` statement (`VariableDeclaration | Expression | null`). -/
inductive ForInit where
  | noInit
  | varDecl (kind : String) (decls : List (String × Expr))
  | expr (e : Expr)

/-- JavaScript statements, restricted to the node kinds the plugin builds,
inspects, or traverses.  The three loop constructors carry their `loc`. -/
inductive Stmt where
  | expressionStatement (e : Expr)
  | variableDeclaration (kind : String) (decls : List (String × Expr))
  | blockStatement (body : List Stmt)
  | ifStatement (test : Expr) (consequent : Stmt) (alternate : Option Stmt)
  | breakStatement (label : Option String)
  | forStatement (loc : Option SrcPos) (finit : ForInit) (test : Option Expr)
      (update : Option Expr) (body : Stmt)
  | whileStatement (loc : Option SrcPos) (test : Expr) (body : Stmt)
  | doWhileStatement (loc : Option SrcPos) (test : Expr) (body : Stmt)
  | functionDeclaration (id : Option String) (params : List String) (body : List Stmt)

end

/-- The `Date.now()` call expression the plugin builds in both fragments. -/
def dateNowCall : Expr :=
  Expr.callExpression
    (Expr.memberExpression (Expr.identifier "Date") (Expr.identifier "now")) []

/-- Embedding of `generateInitialization` (source lines 90-102):
`var <id> = Date.now()`. -/
def generateInitialization (id : String) : Stmt :=
  Stmt.variableDeclaration "var"
    [(id,
      Expr.callExpression
        (Expr.memberExpression (Expr.identifier "Date") (Expr.identifier "now")) [])]

/-- Embedding of `generateLoopGuard` (source lines 113-144):
`if (Date.now() - <id> > <timeout>) \x7b <onAutoBreak>(<line>, <column>); break; \x7d`. -/
def generateLoopGuard (id : String) (line column timeout : Int)
    (onAutoBreak : Expr) : Stmt :=
  Stmt.ifStatement
    (Expr.binaryExpression ">"
      (Expr.binaryExpression "-"
        (Expr.callExpression
          (Expr.memberExpression (Expr.identifier "Date") (Expr.identifier "now")) [])
        (Expr.identifier id))
      (Expr.numericLiteral timeout))
    (Stmt.blockStatement
      [Stmt.expressionStatement
        (Expr.callExpression onAutoBreak
          [Expr.numericLiteral line, Expr.numericLiteral column]),
       Stmt.breakStatement none])
    none

/-- Is the node a `BlockStatement` (`loopBody.isBlockStatement()`)? -/
def isBlockStatement : Stmt → Bool
  | Stmt.blockStatement _ => true
  | _ => false

/-- Embedding of the body splice in `breakAfter` (source lines 48-52): a block
body gets the guard unshifted as its first statement; a bare body is replaced
by a fresh two-statement block. -/
def installGuard (loopGuard : Stmt) (loopBody : Stmt) : Stmt :=
  match loopBody with
  | Stmt.blockStatement body => Stmt.blockStatement (loopGuard :: body)
  | other => Stmt.blockStatement [loopGuard, other]

/-- Embedding of `{ line: 0, column: 0, ...loop.node.loc?.start }`
(source line 40): missing coordinates default to `0`. -/
def startPosition : Option SrcPos → Int × Int
  | none => (0, 0)
  | some p => (p.line.getD 0, p.column.getD 0)

/-- Model of `loop.scope.generateUidIdentifier('auto_break_start')`: the host
scope capability mints a collision-free name; we model the minting sequence
with a counter (uniqueness itself is the host's contract). -/
def mintId (c : Nat) : String :=
  "_auto_break_start" ++ (if c = 0 then "" else toString (c + 1))

/-- The configured `onBreak` option: either a message string or a function
value.  A function value is represented by its source text, which is what
`onBreak.toString()` yields and is all the plugin ever uses of it. -/
inductive OnBreak where
  | message (text : String)
  | callable (sourceText : String)

/-- Embedding of `String(onBreak).replace(/"/g, '\\"')`: every double-quote
character is replaced by a backslash followed by a double quote. -/
def escapeQuotesList : List Char → List Char
  | [] => []
  | c :: rest =>
      if c = '"' then '\\' :: '"' :: escapeQuotesList rest
      else c :: escapeQuotesList rest

/-- String version of `escapeQuotesList`. -/
def escapeQuotes (s : String) : String :=
  String.mk (escapeQuotesList s.data)

/-- The characters matched by the JavaScript regex class `\s`: ECMAScript
WhiteSpace (tab, vertical tab, form feed, space, no-break space, zero-width
no-break space, and the Unicode Space_Separator category) together with the
line terminators (line feed, carriage return, line separator, paragraph
separator). -/
def isJsSpace (c : Char) : Bool :=
  c = ' ' || c = '\t' || c = '\n' || c = '\r' || c = '\x0b' || c = '\x0c' ||
  c = '\u00A0' || c = '\u1680' ||
  ('\u2000' ≤ c && c ≤ '\u200A') ||
  c = '\u2028' || c = '\u2029' || c = '\u202F' || c = '\u205F' ||
  c = '\u3000' || c = '\uFEFF'

/-- Scanner for the tail of the regex `^function\s*\(`: after the keyword,
skip whitespace and demand an opening parenthesis, returning the remainder. -/
def matchFnAnonAfterKeyword : List Char → Option (List Char)
  | [] => none
  | c :: rest =>
      if c = '(' then some rest
      else if isJsSpace c then matchFnAnonAfterKeyword rest
      else none

/-- Embedding of `.replace(/^function\s*\(/, 'function $onAutoBreak$(')`
(source line 65) on a character list. -/
def replaceFnAnonList (cs : List Char) : List Char :=
  if cs.take 8 = "function".data then
    match matchFnAnonAfterKeyword (cs.drop 8) with
    | some rest => "function $onAutoBreak$(".data ++ rest
    | none => cs
  else cs

/-- String version of `replaceFnAnonList`. -/
def replaceFnAnon (s : String) : String :=
  String.mk (replaceFnAnonList s.data)

/-- Embedding of the `onAutoBreakCode` ternary (source lines 64-66): a
function value contributes its (possibly renamed) source text, a message
contributes an arrow that logs the escaped message. -/
def onAutoBreakCode : OnBreak → String
  | OnBreak.callable src => replaceFnAnon src
  | OnBreak.message s => "() => console.error(\"" ++ escapeQuotes s ++ "\")"

/-- Embedding of `transformOnBreak` (source lines 62-81).  `parse` models the
host capability `transform(code, \x7b ast: true \x7d)?.ast?.program.body[0]`:
the first top-level statement of the re-parsed fragment, if any. -/
def transformOnBreak (parse : String → Option Stmt) (onBreak : OnBreak) :
    Except String Expr :=
  match parse (onAutoBreakCode onBreak) with
  | some (Stmt.expressionStatement e) => Except.ok e
  | some (Stmt.functionDeclaration id params body) =>
      Except.ok (Expr.functionExpression id params body)
  | _ => Except.error "babel-babel-auto-break: invalid onBreak action"

/-- Source text of `const noop = function (): void \x7b \x7d` as seen through
`toString()` after type erasure; the default `onBreak`. -/
def noopSource : String := "function () \x7b \x7d"

/-- The plugin's options object (`AutoBreakOptions`): both fields optional. -/
structure AutoBreakOptions where
  onBreak : Option OnBreak := none
  timeout : Option Int := none

mutual

/-- Model of the traversal visiting one statement.  A visited loop is replaced
by the pair `[init, rewritten-loop]` (`loop.insertBefore(...)` makes the
initialization a sibling immediately before the loop, source line 43); any
other statement keeps its place and is traversed for nested loops.  `c` is
the uid-minting counter; the result pairs the advanced counter with the
statements standing where the input statement stood. -/
def instStmt (timeout : Int) (cb : Expr) (c : Nat) : Stmt → Nat × List Stmt
  | Stmt.forStatement loc finit test update body =>
      let lc := startPosition loc
      let g := generateLoopGuard (mintId c) lc.1 lc.2 timeout cb
      let r := instBody timeout cb (c + 1) body
      (r.1, [generateInitialization (mintId c),
             Stmt.forStatement loc finit test update (Stmt.blockStatement (g :: r.2))])
  | Stmt.whileStatement loc test body =>
      let lc := startPosition loc
      let g := generateLoopGuard (mintId c) lc.1 lc.2 timeout cb
      let r := instBody timeout cb (c + 1) body
      (r.1, [generateInitialization (mintId c),
             Stmt.whileStatement loc test (Stmt.blockStatement (g :: r.2))])
  | Stmt.doWhileStatement loc test body =>
      let lc := startPosition loc
      let g := generateLoopGuard (mintId c) lc.1 lc.2 timeout cb
      let r := instBody timeout cb (c + 1) body
      (r.1, [generateInitialization (mintId c),
             Stmt.doWhileStatement loc test (Stmt.blockStatement (g :: r.2))])
  | Stmt.blockStatement ss =>
      let r := instStmts timeout cb c ss
      (r.1, [Stmt.blockStatement r.2])
  | Stmt.ifStatement test conseq alt =>
      let r1 := instSolo timeout cb c conseq
      match alt with
      | some a =>
          let r2 := instSolo timeout cb r1.1 a
          (r2.1, [Stmt.ifStatement test r1.2 (some r2.2)])
      | none => (r1.1, [Stmt.ifStatement test r1.2 none])
  | Stmt.functionDeclaration id ps b =>
      let r := instStmts timeout cb c b
      (r.1, [Stmt.functionDeclaration id ps r.2])
  | s => (c, [s])
termination_by s => (sizeOf s, 1)

/-- Statements of a rewritten loop body following the guard: a block body
contributes its (traversed) statements, a bare body contributes the traversed
statement itself — which expands to two statements when it is itself a loop,
exactly as Babel's traversal continues inside the block `breakAfter` built. -/
def instBody (timeout : Int) (cb : Expr) (c : Nat) : Stmt → Nat × List Stmt
  | Stmt.blockStatement ss => instStmts timeout cb c ss
  | s => instStmt timeout cb c s
termination_by s => (sizeOf s, 2)

/-- Visiting a statement in a non-list position (an `if` branch): when the
rewrite produces siblings, Babel houses them in a block. -/
def instSolo (timeout : Int) (cb : Expr) (c : Nat) (s : Stmt) : Nat × Stmt :=
  match instStmt timeout cb c s with
  | (c2, [one]) => (c2, one)
  | (c2, many) => (c2, Stmt.blockStatement many)
termination_by (sizeOf s, 2)

/-- Traversal over a statement list: each statement's replacement statements
are spliced in place, so an inserted initialization is a sibling in the same
list as its loop. -/
def instStmts (timeout : Int) (cb : Expr) (c : Nat) : List Stmt → Nat × List Stmt
  | [] => (c, [])
  | s :: rest =>
      let r1 := instStmt timeout cb c s
      let r2 := instStmts timeout cb r1.1 rest
      (r2.1, r1.2 ++ r2.2)
termination_by l => (sizeOf l, 0)

end

/-- Embedding of the plugin entry point `autoBreak` (source lines 23-54):
defaults are applied, the callback is synthesized once, then the visitor
rewrites every loop in the program using that one callback.  A synthesis
error aborts construction before any loop is visited. -/
def autoBreak (parse : String → Option Stmt) (options : AutoBreakOptions)
    (program : List Stmt) : Except String (List Stmt) :=
  let timeout := options.timeout.getD 2000
  let onBreak := options.onBreak.getD (OnBreak.callable noopSource)
  match transformOnBreak parse onBreak with
  | Except.ok cb => Except.ok (instStmts timeout cb 0 program).2
  | Except.error e => Except.error e

/-- Runtime values relevant to the guard: numbers and booleans. -/
inductive Val where
  | num (n : Int)
  | boolean (b : Bool)
deriving DecidableEq

/-- Truthiness of a value in a test position. -/
def truthy : Val → Bool
  | Val.num n => n ≠ 0
  | Val.boolean b => b

/-- Evaluator for the expression forms appearing in the guard condition,
with the host clock `Date.now()` reading `nowMs` and identifiers looked up
in `env`.  Other expression forms are not needed and evaluate to `none`. -/
def evalExpr (nowMs : Int) (env : String → Option Int) : Expr → Option Val
  | Expr.numericLiteral n => some (Val.num n)
  | Expr.identifier x => (env x).map Val.num
  | Expr.callExpression
      (Expr.memberExpression (Expr.identifier "Date") (Expr.identifier "now")) [] =>
      some (Val.num nowMs)
  | Expr.binaryExpression "-" a b =>
      match evalExpr nowMs env a, evalExpr nowMs env b with
      | some (Val.num x), some (Val.num y) => some (Val.num (x - y))
      | _, _ => none
  | Expr.binaryExpression ">" a b =>
      match evalExpr nowMs env a, evalExpr nowMs env b with
      | some (Val.num x), some (Val.num y) => some (Val.boolean (decide (x > y)))
      | _, _ => none
  | _ => none

/-- Completion signal of a statement: normal completion or a `break` that is
still propagating outward. -/
inductive Sig where
  | norm
  | brk
deriving DecidableEq

/-- Variable environment of the small-step statement semantics. -/
def lookupVar (env : List (String × Int)) (x : String) : Option Int :=
  (env.find? (fun p => p.1 = x)).map Prod.snd

/-- Bind the declarators of a variable declaration. -/
def bindDecls (nowMs : Int) (env : List (String × Int)) :
    List (String × Expr) → List (String × Int)
  | [] => env
  | (x, e) :: rest =>
      match evalExpr nowMs (lookupVar env) e with
      | some (Val.num n) => bindDecls nowMs ((x, n) :: env) rest
      | _ => bindDecls nowMs env rest

/-- Run a `for` initializer. -/
def runForInit (nowMs : Int) (env : List (String × Int)) :
    ForInit → List (String × Int)
  | ForInit.noInit => env
  | ForInit.varDecl _ decls => bindDecls nowMs env decls
  | ForInit.expr _ => env

/-- Test value of a `for` statement: an absent test means `true`. -/
def forTestVal (nowMs : Int) (env : List (String × Int)) :
    Option Expr → Option Val
  | some te => evalExpr nowMs (lookupVar env) te
  | none => some (Val.boolean true)

mutual

/-- Fuel-indexed statement semantics, precise enough to settle how a `break`
signal propagates: JavaScript's unlabeled `break` completes the innermost
enclosing loop, which absorbs the signal, so it can never terminate an outer
loop.  Expression side effects are not modelled. -/
def execStmt (nowMs : Int) :
    Nat → List (String × Int) → Stmt → Option (List (String × Int) × Sig)
  | 0, _, _ => none
  | Nat.succ f, env, s =>
      match s with
      | Stmt.expressionStatement _ => some (env, Sig.norm)
      | Stmt.variableDeclaration _ decls => some (bindDecls nowMs env decls, Sig.norm)
      | Stmt.blockStatement ss => execStmts nowMs f env ss
      | Stmt.ifStatement t conseq alt =>
          match evalExpr nowMs (lookupVar env) t with
          | some v =>
              if truthy v then execStmt nowMs f env conseq
              else
                match alt with
                | some a => execStmt nowMs f env a
                | none => some (env, Sig.norm)
          | none => none
      | Stmt.breakStatement _ => some (env, Sig.brk)
      | Stmt.whileStatement loc t b =>
          match evalExpr nowMs (lookupVar env) t with
          | some v =>
              if truthy v then
                match execStmt nowMs f env b with
                | some (env2, Sig.brk) => some (env2, Sig.norm)
                | some (env2, Sig.norm) =>
                    execStmt nowMs f env2 (Stmt.whileStatement loc t b)
                | none => none
              else some (env, Sig.norm)
          | none => none
      | Stmt.doWhileStatement loc t b =>
          match execStmt nowMs f env b with
          | some (env2, Sig.brk) => some (env2, Sig.norm)
          | some (env2, Sig.norm) =>
              match evalExpr nowMs (lookupVar env2) t with
              | some v =>
                  if truthy v then
                    execStmt nowMs f env2 (Stmt.doWhileStatement loc t b)
                  else some (env2, Sig.norm)
              | none => none
          | none => none
      | Stmt.forStatement loc finit t update b =>
          match finit with
          | ForInit.noInit =>
              match forTestVal nowMs env t with
              | some v =>
                  if truthy v then
                    match execStmt nowMs f env b with
                    | some (env2, Sig.brk) => some (env2, Sig.norm)
                    | some (env2, Sig.norm) =>
                        execStmt nowMs f env2
                          (Stmt.forStatement loc ForInit.noInit t update b)
                    | none => none
                  else some (env, Sig.norm)
              | none => none
          | fi =>
              execStmt nowMs f (runForInit nowMs env fi)
                (Stmt.forStatement loc ForInit.noInit t update b)
      | Stmt.functionDeclaration _ _ _ => some (env, Sig.norm)

/-- Sequential execution of a statement list: a propagating `break` abandons
the remaining statements of the list. -/
def execStmts (nowMs : Int) :
    Nat → List (String × Int) → List Stmt → Option (List (String × Int) × Sig)
  | 0, _, _ => none
  | Nat.succ _, env, [] => some (env, Sig.norm)
  | Nat.succ f, env, s :: rest =>
      match execStmt nowMs f env s with
      | some (env2, Sig.norm) => execStmts nowMs f env2 rest
      | some (env2, Sig.brk) => some (env2, Sig.brk)
      | none => none

end

/-- Lexer model for a JavaScript double-quoted string literal: consumes the
characters after the opening quote up to the closing quote, decoding escape
sequences, and returns the decoded content together with the unconsumed
remainder.  Only the escapes relevant here are decoded specially; `\c`
decodes to `c` otherwise. -/
def unescapeChar (c : Char) : Char :=
  match c with
  | 'n' => '\n'
  | 't' => '\t'
  | 'r' => '\r'
  | c => c

/-- Lex the body of a double-quoted string literal. -/
def lexJsString : List Char → Option (List Char × List Char)
  | [] => none
  | c :: rest =>
      if c = '"' then some ([], rest)
      else if c = '\\' then
        match rest with
        | [] => none
        | c2 :: rest2 =>
            (lexJsString rest2).map (fun p => (unescapeChar c2 :: p.1, p.2))
      else (lexJsString rest).map (fun p => (c :: p.1, p.2))

/-- A recognizable callable expression shape: arrow or function expression. -/
def isCallableExpr : Expr → Bool
  | Expr.arrowFunctionExpression _ _ => true
  | Expr.functionExpression _ _ _ => true
  | _ => false

/-- Does the fragment have one of the two shapes `transformOnBreak` accepts
without throwing? -/
def recognizedShape : Option Stmt → Bool
  | some (Stmt.expressionStatement _) => true
  | some (Stmt.functionDeclaration _ _ _) => true
  | _ => false

/-- Callee of a statement that has exactly the shape of an injected guard. -/
def guardCallee : Stmt → Option Expr
  | Stmt.ifStatement _
      (Stmt.blockStatement
        [Stmt.expressionStatement (Expr.callExpression f _),
         Stmt.breakStatement none]) none => some f
  | _ => none

/-- Test expression of a conditional statement. -/
def guardTest : Stmt → Option Expr
  | Stmt.ifStatement t _ _ => some t
  | _ => none

mutual

/-- All callees of guard-shaped conditionals in a statement, in order. -/
def guardCallees : Stmt → List Expr
  | Stmt.blockStatement ss => guardCalleesList ss
  | Stmt.ifStatement t conseq alt =>
      (match guardCallee (Stmt.ifStatement t conseq alt) with
        | some f => [f]
        | none => [])
      ++ guardCallees conseq
      ++ (match alt with
        | some a => guardCallees a
        | none => [])
  | Stmt.forStatement _ _ _ _ b => guardCallees b
  | Stmt.whileStatement _ _ b => guardCallees b
  | Stmt.doWhileStatement _ _ b => guardCallees b
  | Stmt.functionDeclaration _ _ b => guardCalleesList b
  | _ => []
termination_by s => (sizeOf s, 1)

/-- All callees of guard-shaped conditionals in a statement list, in order. -/
def guardCalleesList : List Stmt → List Expr
  | [] => []
  | s :: rest => guardCallees s ++ guardCalleesList rest
termination_by l => (sizeOf l, 0)

end

/-- Sample callback expression used to instantiate theorems. -/
def cbW : Expr := Expr.arrowFunctionExpression [] (Expr.numericLiteral 0)

/-- Sample environment binding the sample timer variable to start time 7. -/
def envW : String → Option Int :=
  fun x => if x = "_auto_break_start" then some 7 else none

/-- Sample guard statement used to instantiate theorems. -/
def guardW : Stmt := generateLoopGuard "_auto_break_start" 5 2 1000 cbW

/-- Sample bare (non-block) statement used to instantiate theorems. -/
def bareW : Stmt := Stmt.expressionStatement (Expr.identifier "x")

/-- Sample loop used to instantiate theorems. -/
def loopW : Stmt :=
  Stmt.whileStatement (some ⟨some 5, some 2⟩) (Expr.identifier "go")
    (Stmt.blockStatement [bareW])

/-- Sample program with two sibling loops, used to instantiate theorems. -/
def progW : List Stmt :=
  [loopW, Stmt.forStatement none ForInit.noInit none none bareW]

/-- Parse capability that always yields an expression statement wrapping a
non-callable expression. -/
def parseNum42 : String → Option Stmt :=
  fun _ => some (Stmt.expressionStatement (Expr.numericLiteral 42))

/-- Parse capability that always fails to produce a first statement. -/
def parseNone : String → Option Stmt := fun _ => none

/-- Parse capability that always yields a named function declaration. -/
def parseFnDecl : String → Option Stmt :=
  fun _ =>
    some (Stmt.functionDeclaration (some "$onAutoBreak$") ["line", "column"]
      [Stmt.expressionStatement (Expr.identifier "line")])

/-- Parse capability that always yields an arrow wrapped in an expression
statement, as re-parsing a message-derived arrow source does. -/
def parseArrow : String → Option Stmt :=
  fun _ =>
    some (Stmt.expressionStatement
      (Expr.arrowFunctionExpression []
        (Expr.callExpression
          (Expr.memberExpression (Expr.identifier "console") (Expr.identifier "error"))
          [Expr.stringLiteral "stuck"])))

/-- Named-function source text used to instantiate theorems. -/
def namedFnSource : String := "function namedCallback(a, b) \x7b return a \x7d"

/-- Anonymous-function source text used to instantiate theorems. -/
def anonFnSource : String := "function (a) \x7b return a \x7d"

/-- Arrow-function source text used to instantiate theorems. -/
def arrowSource : String := "(l, c) => 0"

/-- Anonymous-function source text with a no-break space (U+00A0) between the
keyword and the parenthesis, matched by the regex class `\s`; used to
instantiate theorems. -/
def nbspFnSource : String := "function\u00A0(a) \x7b return a \x7d"

def cbArrow : Expr :=
  Expr.arrowFunctionExpression []
    (Expr.callExpression
      (Expr.memberExpression (Expr.identifier "console") (Expr.identifier "error"))
      [Expr.stringLiteral "stuck"])

def optsW : AutoBreakOptions :=
  { onBreak := some (OnBreak.message "stuck"), timeout := some 1000 }

def outW : List Stmt :=
  [generateInitialization "_auto_break_start",
   Stmt.whileStatement (some ⟨some 5, some 2⟩) (Expr.identifier "go")
     (Stmt.blockStatement [generateLoopGuard "_auto_break_start" 5 2 1000 cbArrow, bareW]),
   generateInitialization "_auto_break_start2",
   Stmt.forStatement none ForInit.noInit none none
     (Stmt.blockStatement [generateLoopGuard "_auto_break_start2" 0 0 1000 cbArrow, bareW])]

/-! Helper lemmas shared by the claim theorems. -/

/-- A `while` statement absorbs a `break` raised in its body: its own
completion is always normal, so the break cannot terminate an outer loop. -/
lemma while_exec_no_brk (nowMs : Int) :
    ∀ (f : Nat) (env : List (String × Int)) (loc : Option SrcPos) (te : Expr) (b : Stmt)
      (r : List (String × Int) × Sig),
      execStmt nowMs f env (Stmt.whileStatement loc te b) = some r → r.2 = Sig.norm := by
  intro f
  induction f with
  | zero => intro env loc te b r h; simp [execStmt] at h
  | succ f ih =>
      intro env loc te b r h
      rw [execStmt] at h
      split at h
      case _ v heq =>
        by_cases ht : truthy v = true
        · rw [if_pos ht] at h
          split at h
          case _ env2 heq2 =>
            cases h
            rfl
          case _ env2 heq2 =>
            exact ih env2 loc te b r h
          case _ => cases h
        · rw [if_neg ht] at h
          cases h
          rfl
      case _ => cases h

/-- A `do-while` statement absorbs a `break` raised in its body. -/
lemma dowhile_exec_no_brk (nowMs : Int) :
    ∀ (f : Nat) (env : List (String × Int)) (loc : Option SrcPos) (te : Expr) (b : Stmt)
      (r : List (String × Int) × Sig),
      execStmt nowMs f env (Stmt.doWhileStatement loc te b) = some r → r.2 = Sig.norm := by
  intro f
  induction f with
  | zero => intro env loc te b r h; simp [execStmt] at h
  | succ f ih =>
      intro env loc te b r h
      rw [execStmt] at h
      split at h
      case _ env2 heq =>
        cases h
        rfl
      case _ env2 heq =>
        split at h
        case _ v heq2 =>
          by_cases ht : truthy v = true
          · rw [if_pos ht] at h
            exact ih env2 loc te b r h
          · rw [if_neg ht] at h
            cases h
            rfl
        case _ => cases h
      case _ => cases h

/-- A `for` statement absorbs a `break` raised in its body. -/
lemma for_exec_no_brk (nowMs : Int) :
    ∀ (f : Nat) (env : List (String × Int)) (loc : Option SrcPos) (finit : ForInit)
      (te : Option Expr) (up : Option Expr) (b : Stmt)
      (r : List (String × Int) × Sig),
      execStmt nowMs f env (Stmt.forStatement loc finit te up b) = some r → r.2 = Sig.norm := by
  intro f
  induction f with
  | zero => intro env loc finit te up b r h; simp [execStmt] at h
  | succ f ih =>
      intro env loc finit te up b r h
      cases finit with
      | noInit =>
          rw [execStmt] at h
          split at h
          case _ v heq =>
            by_cases ht : truthy v = true
            · rw [if_pos ht] at h
              split at h
              case _ env2 heq2 =>
                cases h
                rfl
              case _ env2 heq2 =>
                exact ih env2 loc ForInit.noInit te up b r h
              case _ => cases h
            · rw [if_neg ht] at h
              cases h
              rfl
          case _ => cases h
      | varDecl kind decls =>
          rw [execStmt] at h
          exact ih _ loc ForInit.noInit te up b r h
          intro hh
          cases hh
      | expr e =>
          rw [execStmt] at h
          exact ih _ loc ForInit.noInit te up b r h
          intro hh
          cases hh


/-- C1: the injected guard has exactly the form
`if ((Date.now() - timerName) > timeoutMillis) \x7b callback(line, column); break; \x7d`:
the elapsed-time comparison is strict (`>`), so elapsed time exactly equal to
the timeout evaluates the condition to `false` and does not break; `line`,
`column` and the timeout are embedded as numeric literals; the exit is an
unlabeled `break`, and every loop absorbs a break raised in its body, so the
break terminates only the innermost rewritten loop. -/
theorem c1_guard_form (id : String) (line column timeout : Int) (cb : Expr)
    (nowMs start : Int) (env : String → Option Int) (h : env id = some start) :
    generateLoopGuard id line column timeout cb =
      Stmt.ifStatement
        (Expr.binaryExpression ">"
          (Expr.binaryExpression "-" dateNowCall (Expr.identifier id))
          (Expr.numericLiteral timeout))
        (Stmt.blockStatement
          [Stmt.expressionStatement
            (Expr.callExpression cb [Expr.numericLiteral line, Expr.numericLiteral column]),
           Stmt.breakStatement none])
        none
    ∧ (guardTest (generateLoopGuard id line column timeout cb)).bind (evalExpr nowMs env)
        = some (Val.boolean (decide (nowMs - start > timeout)))
    ∧ (nowMs - start = timeout →
        (guardTest (generateLoopGuard id line column timeout cb)).bind (evalExpr nowMs env)
          = some (Val.boolean false))
    ∧ (∀ f env2 loc te b r, execStmt nowMs f env2 (Stmt.whileStatement loc te b) = some r →
        r.2 = Sig.norm)
    ∧ (∀ f env2 loc te b r, execStmt nowMs f env2 (Stmt.doWhileStatement loc te b) = some r →
        r.2 = Sig.norm)
    ∧ (∀ f env2 loc finit te up b r,
        execStmt nowMs f env2 (Stmt.forStatement loc finit te up b) = some r →
        r.2 = Sig.norm) := by
  refine ⟨rfl, ?_, ?_, ?_, ?_, ?_⟩
  · simp [generateLoopGuard, guardTest, evalExpr, dateNowCall, h]
  · intro he
    simp [generateLoopGuard, guardTest, evalExpr, dateNowCall, h, he]
  · intro f env2 loc te b r hr
    exact while_exec_no_brk nowMs f env2 loc te b r hr
  · intro f env2 loc te b r hr
    exact dowhile_exec_no_brk nowMs f env2 loc te b r hr
  · intro f env2 loc finit te up b r hr
    exact for_exec_no_brk nowMs f env2 loc finit te up b r hr

theorem c1_witness :
    envW "_auto_break_start" = some 7
    ∧ ((1007 : Int) - 7 = 1000)
    ∧ (guardTest (generateLoopGuard "_auto_break_start" 5 2 1000 cbW)).bind (evalExpr 1007 envW)
        = some (Val.boolean false) := by
  refine ⟨by decide, by decide, ?_⟩
  exact (c1_guard_form "_auto_break_start" 5 2 1000 cbW 1007 7 envW (by decide)).2.2.1 (by decide)


/-- C2: a block body keeps all its statements in order behind the prepended
guard; a bare body becomes a block of exactly the guard then the original
statement. -/
theorem c2_body_splice (g body : Stmt) :
    (∀ ss, body = Stmt.blockStatement ss → installGuard g body = Stmt.blockStatement (g :: ss))
    ∧ (isBlockStatement body = false → installGuard g body = Stmt.blockStatement [g, body]) := by
  constructor
  · intro ss hss
    subst hss
    rfl
  · intro hb
    cases body <;> simp_all [installGuard, isBlockStatement]

theorem c2_witness :
    installGuard guardW (Stmt.blockStatement [bareW]) = Stmt.blockStatement [guardW, bareW]
    ∧ isBlockStatement bareW = false
    ∧ installGuard guardW bareW = Stmt.blockStatement [guardW, bareW] :=
  ⟨(c2_body_splice guardW (Stmt.blockStatement [bareW])).1 [bareW] rfl,
   rfl,
   (c2_body_splice guardW bareW).2 rfl⟩

/-- C3: every visited loop is replaced by exactly two sibling statements in
the same statement list, the first being `var <mintedId> = Date.now()` and
the second the rewritten loop; `instStmts` splices them in place. -/
theorem c3_timer_initialization (tm : Int) (cb : Expr) (c : Nat) :
    (∀ id, generateInitialization id =
      Stmt.variableDeclaration "var"
        [(id, Expr.callExpression
            (Expr.memberExpression (Expr.identifier "Date") (Expr.identifier "now")) [])])
    ∧ (∀ loc te b, instStmt tm cb c (Stmt.whileStatement loc te b) =
        ((instBody tm cb (c + 1) b).1,
         [generateInitialization (mintId c),
          Stmt.whileStatement loc te (Stmt.blockStatement
            (generateLoopGuard (mintId c) (startPosition loc).1 (startPosition loc).2 tm cb
              :: (instBody tm cb (c + 1) b).2))]))
    ∧ (∀ loc finit te up b, instStmt tm cb c (Stmt.forStatement loc finit te up b) =
        ((instBody tm cb (c + 1) b).1,
         [generateInitialization (mintId c),
          Stmt.forStatement loc finit te up (Stmt.blockStatement
            (generateLoopGuard (mintId c) (startPosition loc).1 (startPosition loc).2 tm cb
              :: (instBody tm cb (c + 1) b).2))]))
    ∧ (∀ loc te b, instStmt tm cb c (Stmt.doWhileStatement loc te b) =
        ((instBody tm cb (c + 1) b).1,
         [generateInitialization (mintId c),
          Stmt.doWhileStatement loc te (Stmt.blockStatement
            (generateLoopGuard (mintId c) (startPosition loc).1 (startPosition loc).2 tm cb
              :: (instBody tm cb (c + 1) b).2))]))
    ∧ (∀ s rest, (instStmts tm cb c (s :: rest)).2 =
        (instStmt tm cb c s).2 ++ (instStmts tm cb (instStmt tm cb c s).1 rest).2) := by
  refine ⟨fun id => rfl, fun loc te b => ?_, fun loc finit te up b => ?_,
    fun loc te b => ?_, fun s rest => ?_⟩
  · simp [instStmt]
  · simp [instStmt]
  · simp [instStmt]
  · simp [instStmts]

/-- C9: a missing position object, or any missing coordinate inside it,
defaults to 0, and a loop with no position gets its guard built at (0, 0);
a present position contributes the loop's own start line and column. -/
theorem c9_position_defaults (tm : Int) (cb : Expr) (c : Nat) :
    startPosition none = (0, 0)
    ∧ (∀ l cc : Int, startPosition (some ⟨some l, some cc⟩) = (l, cc))
    ∧ (∀ cc : Int, startPosition (some ⟨none, some cc⟩) = (0, cc))
    ∧ (∀ l : Int, startPosition (some ⟨some l, none⟩) = (l, 0))
    ∧ startPosition (some ⟨none, none⟩) = (0, 0)
    ∧ (∀ te b, instStmt tm cb c (Stmt.whileStatement none te b) =
        ((instBody tm cb (c + 1) b).1,
         [generateInitialization (mintId c),
          Stmt.whileStatement none te (Stmt.blockStatement
            (generateLoopGuard (mintId c) 0 0 tm cb :: (instBody tm cb (c + 1) b).2))])) := by
  refine ⟨rfl, fun l cc => rfl, fun cc => rfl, fun l => rfl, rfl, fun te b => ?_⟩
  simp [instStmt, startPosition]

/-- C10: the rewrite keeps a loop's `loc`, `for` initializer, test expression
and update expression unchanged; only the body is replaced (and the timer
initialization inserted as a preceding sibling). -/
theorem c10_frame (tm : Int) (cb : Expr) (c : Nat) :
    (∀ loc finit te up b, ∃ c2 nb,
      instStmt tm cb c (Stmt.forStatement loc finit te up b)
        = (c2, [generateInitialization (mintId c), Stmt.forStatement loc finit te up nb]))
    ∧ (∀ loc te b, ∃ c2 nb,
      instStmt tm cb c (Stmt.whileStatement loc te b)
        = (c2, [generateInitialization (mintId c), Stmt.whileStatement loc te nb]))
    ∧ (∀ loc te b, ∃ c2 nb,
      instStmt tm cb c (Stmt.doWhileStatement loc te b)
        = (c2, [generateInitialization (mintId c), Stmt.doWhileStatement loc te nb])) := by
  refine
    ⟨fun loc finit te up b =>
      ⟨(instBody tm cb (c + 1) b).1,
       Stmt.blockStatement
         (generateLoopGuard (mintId c) (startPosition loc).1 (startPosition loc).2 tm cb
           :: (instBody tm cb (c + 1) b).2), ?_⟩,
     fun loc te b =>
      ⟨(instBody tm cb (c + 1) b).1,
       Stmt.blockStatement
         (generateLoopGuard (mintId c) (startPosition loc).1 (startPosition loc).2 tm cb
           :: (instBody tm cb (c + 1) b).2), ?_⟩,
     fun loc te b =>
      ⟨(instBody tm cb (c + 1) b).1,
       Stmt.blockStatement
         (generateLoopGuard (mintId c) (startPosition loc).1 (startPosition loc).2 tm cb
           :: (instBody tm cb (c + 1) b).2), ?_⟩⟩ <;>
    simp [instStmt]


lemma lexJsString_quote (rest : List Char) : lexJsString ('"' :: rest) = some ([], rest) := by
  rw [lexJsString.eq_def]
  simp

lemma lexJsString_escape (c : Char) (l : List Char) :
    lexJsString ('\\' :: c :: l) = (lexJsString l).map (fun p => (unescapeChar c :: p.1, p.2)) := by
  rw [lexJsString.eq_def]
  simp

lemma lexJsString_other (c : Char) (l : List Char) (hq : c ≠ '"') (hc : c ≠ '\\') :
    lexJsString (c :: l) = (lexJsString l).map (fun p => (c :: p.1, p.2)) := by
  rw [lexJsString.eq_def]
  simp [hq, hc]

lemma lex_escaped (cs : List Char) (hnb : '\\' ∉ cs) (rest : List Char) :
    lexJsString (escapeQuotesList cs ++ '"' :: rest) = some (cs, rest) := by
  induction cs with
  | nil => simp [escapeQuotesList, lexJsString_quote]
  | cons c cs ih =>
      have hc : c ≠ '\\' := fun he => hnb (he ▸ List.mem_cons_self c cs)
      have hcs : '\\' ∉ cs := fun hm => hnb (List.mem_cons_of_mem c hm)
      by_cases hq : c = '"'
      · subst hq
        simp [escapeQuotesList, lexJsString_escape, unescapeChar, ih hcs]
      · simp [escapeQuotesList, hq, lexJsString_other c _ hq hc, ih hcs]

/-- C5: a message option yields the arrow source
`() => console.error("<escaped>")`: the message sits inside the produced text
as a double-quoted literal whose body is the message with every double-quote
character backslash-escaped, and lexing that literal recovers exactly the
original message (for messages without backslashes, which the escaping does
not treat), so a message with an embedded double quote round-trips. -/
theorem c5_message_escaping (msg : String) (hnb : '\\' ∉ msg.data) :
    onAutoBreakCode (OnBreak.message msg)
      = "() => console.error(\"" ++ escapeQuotes msg ++ "\")"
    ∧ (onAutoBreakCode (OnBreak.message msg)).data
      = "() => console.error(".data ++ '"' :: (escapeQuotesList msg.data ++ '"' :: ")".data)
    ∧ lexJsString (escapeQuotesList msg.data ++ '"' :: ")".data)
      = some (msg.data, ")".data) := by
  refine ⟨rfl, ?_, lex_escaped msg.data hnb ")".data⟩
  show ("() => console.error(\"" ++ escapeQuotes msg ++ "\")").data = _
  simp [String.data_append, escapeQuotes]

theorem c5_witness :
    '\\' ∉ ("he said \"stuck\"").data
    ∧ lexJsString (escapeQuotesList ("he said \"stuck\"").data ++ '"' :: ")".data)
      = some (("he said \"stuck\"").data, ")".data) :=
  ⟨by decide, (c5_message_escaping "he said \"stuck\"" (by decide)).2.2⟩


/-- C7 counterexample: `namedFnSource` begins with the keyword `function`,
yet the synthesizer re-parses it unchanged — no synthetic name (`$`) is
attached — because the token rewrite only fires when `(` follows the keyword
directly (an anonymous function form). -/
theorem c7_counterexample :
    namedFnSource.data.take 8 = "function".data
    ∧ onAutoBreakCode (OnBreak.callable namedFnSource) = namedFnSource
    ∧ '$' ∉ (onAutoBreakCode (OnBreak.callable namedFnSource)).data := by
  refine ⟨by decide, rfl, by decide⟩

lemma matchFn_spaces (ws : List Char) (hsp : ∀ c ∈ ws, isJsSpace c = true) (rest : List Char) :
    matchFnAnonAfterKeyword (ws ++ '(' :: rest) = some rest := by
  induction ws with
  | nil => simp [matchFnAnonAfterKeyword]
  | cons c ws ih =>
      have hc : isJsSpace c = true := hsp c (List.mem_cons_self c ws)
      have hcne : c ≠ '(' := by
        intro he
        subst he
        simp [isJsSpace] at hc
      simp [matchFnAnonAfterKeyword, hcne, hc,
        ih (fun d hd => hsp d (List.mem_cons_of_mem c hd))]

/-- C7 amended: the introductory-token rewrite fires exactly when the source
text matches `function`, then optional whitespace, then `(` — the anonymous
function form; a source not starting with `function`, or one where a name (or
anything else) stands between the keyword and `(`, is re-parsed unchanged. -/
theorem c7_amended :
    (∀ (src : String) (ws rest : List Char),
      src.data = "function".data ++ (ws ++ '(' :: rest) →
      (∀ c ∈ ws, isJsSpace c = true) →
      onAutoBreakCode (OnBreak.callable src)
        = String.mk ("function $onAutoBreak$(".data ++ rest))
    ∧ (∀ src : String, src.data.take 8 ≠ "function".data →
        onAutoBreakCode (OnBreak.callable src) = src)
    ∧ (∀ src : String, matchFnAnonAfterKeyword (src.data.drop 8) = none →
        onAutoBreakCode (OnBreak.callable src) = src) := by
  refine ⟨?_, ?_, ?_⟩
  · intro src ws rest h1 h2
    show replaceFnAnon src = _
    unfold replaceFnAnon replaceFnAnonList
    rw [h1]
    rw [List.take_append_of_le_length (by decide),
        List.drop_append_of_le_length (by decide)]
    simp [matchFn_spaces ws h2 rest]
  · intro src h
    show replaceFnAnon src = src
    unfold replaceFnAnon replaceFnAnonList
    rw [if_neg h]
  · intro src h
    show replaceFnAnon src = src
    unfold replaceFnAnon replaceFnAnonList
    by_cases ht : src.data.take 8 = "function".data
    · rw [if_pos ht, h]
    · rw [if_neg ht]

theorem c7_witness :
    anonFnSource.data = "function".data ++ ([' '] ++ '(' :: "a) \x7b return a \x7d".data)
    ∧ onAutoBreakCode (OnBreak.callable anonFnSource)
        = String.mk ("function $onAutoBreak$(".data ++ "a) \x7b return a \x7d".data)
    ∧ nbspFnSource.data = "function".data ++ (['\u00A0'] ++ '(' :: "a) \x7b return a \x7d".data)
    ∧ onAutoBreakCode (OnBreak.callable nbspFnSource)
        = String.mk ("function $onAutoBreak$(".data ++ "a) \x7b return a \x7d".data)
    ∧ arrowSource.data.take 8 ≠ "function".data
    ∧ onAutoBreakCode (OnBreak.callable arrowSource) = arrowSource :=
  ⟨by decide,
   c7_amended.1 anonFnSource [' '] "a) \x7b return a \x7d".data (by decide) (by decide),
   by decide,
   c7_amended.1 nbspFnSource ['\u00A0'] "a) \x7b return a \x7d".data (by decide) (by decide),
   by decide,
   c7_amended.2.1 arrowSource (by decide)⟩


/-- C8: a function-declaration-shaped fragment is converted to a function
expression with the same identifier (possibly absent), the same parameter
list and the same body. -/
theorem c8_declaration_to_expression (parse : String → Option Stmt) (ob : OnBreak)
    (id : Option String) (ps : List String) (b : List Stmt)
    (h : parse (onAutoBreakCode ob) = some (Stmt.functionDeclaration id ps b)) :
    transformOnBreak parse ob = Except.ok (Expr.functionExpression id ps b) := by
  unfold transformOnBreak
  rw [h]

theorem c8_witness :
    parseFnDecl (onAutoBreakCode (OnBreak.message "m"))
      = some (Stmt.functionDeclaration (some "$onAutoBreak$") ["line", "column"]
          [Stmt.expressionStatement (Expr.identifier "line")])
    ∧ transformOnBreak parseFnDecl (OnBreak.message "m")
      = Except.ok (Expr.functionExpression (some "$onAutoBreak$") ["line", "column"]
          [Stmt.expressionStatement (Expr.identifier "line")]) :=
  ⟨rfl, c8_declaration_to_expression parseFnDecl (OnBreak.message "m") _ _ _ rfl⟩

/-- C6 counterexample: a fragment that is an expression statement wrapping a
non-callable (a numeric literal) is *not* an error — the wrapped expression
is returned as the callback without any callability check — contradicting
the claim that exactly the fragments that are neither an expression statement
wrapping a callable nor a function declaration throw. -/
theorem c6_counterexample :
    transformOnBreak parseNum42 (OnBreak.message "x") = Except.ok (Expr.numericLiteral 42)
    ∧ isCallableExpr (Expr.numericLiteral 42) = false :=
  ⟨rfl, rfl⟩

/-- C6 amended: the synthesizer errors exactly when the re-parsed fragment is
neither an expression statement (whatever expression it wraps — that
expression is never inspected) nor a function declaration; the error is the
fixed invalid-onBreak message, produced at construction time: `autoBreak`
propagates it for every program without visiting any loop, never retries and
never substitutes a default. -/
theorem c6_amended_error_condition (parse : String → Option Stmt) (ob : OnBreak) :
    ((∃ e, transformOnBreak parse ob = Except.error e)
      ↔ recognizedShape (parse (onAutoBreakCode ob)) = false)
    ∧ (recognizedShape (parse (onAutoBreakCode ob)) = false →
        transformOnBreak parse ob
          = Except.error "babel-babel-auto-break: invalid onBreak action")
    ∧ (∀ (opts : AutoBreakOptions) (prog : List Stmt) (e : String),
        transformOnBreak parse (opts.onBreak.getD (OnBreak.callable noopSource))
          = Except.error e →
        autoBreak parse opts prog = Except.error e) := by
  refine ⟨?_, ?_, ?_⟩
  · cases hp : parse (onAutoBreakCode ob) with
    | none => simp [transformOnBreak, hp, recognizedShape]
    | some s => cases s <;> simp [transformOnBreak, hp, recognizedShape]
  · intro h
    cases hp : parse (onAutoBreakCode ob) with
    | none => simp [transformOnBreak, hp]
    | some s =>
        cases s <;> simp_all [transformOnBreak, hp, recognizedShape]
  · intro opts prog e h
    simp [autoBreak, h]

theorem c6_witness :
    recognizedShape (parseNone (onAutoBreakCode (OnBreak.message "m"))) = false
    ∧ transformOnBreak parseNone (OnBreak.message "m")
        = Except.error "babel-babel-auto-break: invalid onBreak action"
    ∧ autoBreak parseNone { onBreak := some (OnBreak.message "m") } progW
        = Except.error "babel-babel-auto-break: invalid onBreak action" :=
  ⟨rfl,
   (c6_amended_error_condition parseNone (OnBreak.message "m")).2.1 rfl,
   (c6_amended_error_condition parseNone (OnBreak.message "m")).2.2
     { onBreak := some (OnBreak.message "m") } progW _
     ((c6_amended_error_condition parseNone (OnBreak.message "m")).2.1 rfl)⟩



lemma guardCalleesList_append (a b : List Stmt) :
    guardCalleesList (a ++ b) = guardCalleesList a ++ guardCalleesList b := by
  induction a with
  | nil => simp [guardCalleesList]
  | cons s rest ih => simp [guardCalleesList, ih]

lemma guardCallees_guard (id : String) (line col tm : Int) (cb : Expr) :
    guardCallees (generateLoopGuard id line col tm cb) = [cb] := by
  simp [generateLoopGuard, guardCallees, guardCallee, guardCalleesList]

lemma guardCallees_init (id : String) :
    guardCallees (generateInitialization id) = [] := by
  simp [generateInitialization, guardCallees]

lemma guardCallee_some (t : Expr) (conseq : Stmt) (alt : Option Stmt) (f : Expr)
    (h : guardCallee (Stmt.ifStatement t conseq alt) = some f) :
    ∃ args, conseq = Stmt.blockStatement
      [Stmt.expressionStatement (Expr.callExpression f args),
       Stmt.breakStatement none] ∧ alt = none := by
  unfold guardCallee at h
  split at h
  case _ t2 db f2 args hmm =>
    cases h
    cases hmm
    exact ⟨args, rfl, rfl⟩
  case _ => cases h

lemma instStmt_ne_nil (tm : Int) (cb : Expr) (c : Nat) (s : Stmt) :
    (instStmt tm cb c s).2 ≠ [] := by
  cases s with
  | ifStatement t conseq alt => cases alt <;> simp [instStmt]
  | _ => simp [instStmt]

lemma instStmts_nil_inv (tm : Int) (cb : Expr) (c : Nat) (ss : List Stmt)
    (h : (instStmts tm cb c ss).2 = []) : ss = [] := by
  cases ss with
  | nil => rfl
  | cons s rest =>
      exfalso
      rw [show (instStmts tm cb c (s :: rest)).2
          = (instStmt tm cb c s).2 ++ (instStmts tm cb (instStmt tm cb c s).1 rest).2 from by
        simp [instStmts]] at h
      rcases List.append_eq_nil.mp h with ⟨h1, _⟩
      exact instStmt_ne_nil tm cb c s h1

lemma instStmts_break_inv (tm : Int) (cb : Expr) (c : Nat) (ss : List Stmt)
    (lb : Option String)
    (h : (instStmts tm cb c ss).2 = [Stmt.breakStatement lb]) :
    ss = [Stmt.breakStatement lb] := by
  cases ss with
  | nil => simp [instStmts] at h
  | cons s rest =>
      rw [show (instStmts tm cb c (s :: rest)).2
          = (instStmt tm cb c s).2 ++ (instStmts tm cb (instStmt tm cb c s).1 rest).2 from by
        simp [instStmts]] at h
      cases s with
      | breakStatement lb2 =>
          simp [instStmt] at h
          rcases h with ⟨h1, h2⟩
          subst h1
          rw [instStmts_nil_inv tm cb _ rest h2]
      | ifStatement t conseq alt => cases alt <;> simp [instStmt] at h
      | _ => simp [instStmt, generateInitialization] at h

lemma instStmts_pair_inv (tm : Int) (cb : Expr) (c : Nat) (ss : List Stmt)
    (e1 : Expr) (lb : Option String)
    (h : (instStmts tm cb c ss).2
      = [Stmt.expressionStatement e1, Stmt.breakStatement lb]) :
    ss = [Stmt.expressionStatement e1, Stmt.breakStatement lb] := by
  cases ss with
  | nil => simp [instStmts] at h
  | cons s rest =>
      rw [show (instStmts tm cb c (s :: rest)).2
          = (instStmt tm cb c s).2 ++ (instStmts tm cb (instStmt tm cb c s).1 rest).2 from by
        simp [instStmts]] at h
      cases s with
      | expressionStatement e =>
          simp [instStmt] at h
          rcases h with ⟨h1, h2⟩
          subst h1
          rw [instStmts_break_inv tm cb _ rest lb h2]
      | ifStatement t conseq alt => cases alt <;> simp [instStmt] at h
      | _ => simp [instStmt, generateInitialization] at h

lemma instSolo_guard_inv (tm : Int) (cb : Expr) (c : Nat) (s : Stmt)
    (e1 : Expr) (lb : Option String)
    (h : (instSolo tm cb c s).2
      = Stmt.blockStatement [Stmt.expressionStatement e1, Stmt.breakStatement lb]) :
    s = Stmt.blockStatement [Stmt.expressionStatement e1, Stmt.breakStatement lb] := by
  cases s with
  | blockStatement ss =>
      simp [instSolo, instStmt] at h
      rw [instStmts_pair_inv tm cb c ss e1 lb h]
  | ifStatement t conseq alt => cases alt <;> simp [instSolo, instStmt] at h
  | _ => simp [instSolo, instStmt, generateInitialization] at h

lemma guardCallee_alt_some (t : Expr) (cq a : Stmt) :
    guardCallee (Stmt.ifStatement t cq (some a)) = none := by
  unfold guardCallee
  split
  case _ h => simp at h
  case _ => rfl

lemma guardCallees_instSolo (tm : Int) (cb : Expr) (c : Nat) (s : Stmt) :
    guardCallees (instSolo tm cb c s).2 = guardCalleesList (instStmt tm cb c s).2 := by
  unfold instSolo
  rcases hi : instStmt tm cb c s with ⟨c2, l⟩
  match l with
  | [] => simp [guardCallees, guardCalleesList]
  | [one] => simp [guardCalleesList]
  | a :: b :: r => simp [guardCallees]

lemma callees_bound (tm : Int) (cb : Expr) :
    ∀ N : Nat,
      (∀ s : Stmt, sizeOf s ≤ N → ∀ c e,
          e ∈ guardCalleesList (instStmt tm cb c s).2 → e = cb ∨ e ∈ guardCallees s)
      ∧ (∀ l : List Stmt, sizeOf l ≤ N → ∀ c e,
          e ∈ guardCalleesList (instStmts tm cb c l).2 → e = cb ∨ e ∈ guardCalleesList l)
      ∧ (∀ s : Stmt, sizeOf s ≤ N → ∀ c e,
          e ∈ guardCallees (instSolo tm cb c s).2 → e = cb ∨ e ∈ guardCallees s)
      ∧ (∀ s : Stmt, sizeOf s ≤ N → ∀ c e,
          e ∈ guardCalleesList (instBody tm cb c s).2 → e = cb ∨ e ∈ guardCallees s) := by
  intro N
  induction N using Nat.strong_induction_on with
  | _ N IH =>
    have h1 : ∀ s : Stmt, sizeOf s ≤ N → ∀ c e,
        e ∈ guardCalleesList (instStmt tm cb c s).2 → e = cb ∨ e ∈ guardCallees s := by
      intro s hs c e he
      cases s with
      | expressionStatement e2 =>
          simp [instStmt, guardCalleesList, guardCallees] at he
      | variableDeclaration k d =>
          simp [instStmt, guardCalleesList, guardCallees] at he
      | breakStatement lb =>
          simp [instStmt, guardCalleesList, guardCallees] at he
      | blockStatement ss =>
          simp [instStmt, guardCalleesList, guardCallees] at he
          have hlt : sizeOf ss < N :=
            lt_of_lt_of_le (by simp <;> omega : sizeOf ss < sizeOf (Stmt.blockStatement ss)) hs
          have := (IH (sizeOf ss) hlt).2.1 ss (le_refl _) c e he
          simpa [guardCallees] using this
      | functionDeclaration id2 ps b =>
          simp [instStmt, guardCalleesList, guardCallees] at he
          have hlt : sizeOf b < N :=
            lt_of_lt_of_le
              (by simp <;> omega : sizeOf b < sizeOf (Stmt.functionDeclaration id2 ps b)) hs
          have := (IH (sizeOf b) hlt).2.1 b (le_refl _) c e he
          simpa [guardCallees] using this
      | whileStatement loc te b =>
          simp [instStmt, guardCalleesList, guardCallees, generateInitialization,
            guardCallees_guard] at he
          rcases he with he | he
          · exact Or.inl he
          · have hlt : sizeOf b < N :=
              lt_of_lt_of_le
                (by simp <;> omega : sizeOf b < sizeOf (Stmt.whileStatement loc te b)) hs
            have := (IH (sizeOf b) hlt).2.2.2 b (le_refl _) (c + 1) e he
            simpa [guardCallees] using this
      | doWhileStatement loc te b =>
          simp [instStmt, guardCalleesList, guardCallees, generateInitialization,
            guardCallees_guard] at he
          rcases he with he | he
          · exact Or.inl he
          · have hlt : sizeOf b < N :=
              lt_of_lt_of_le
                (by simp <;> omega : sizeOf b < sizeOf (Stmt.doWhileStatement loc te b)) hs
            have := (IH (sizeOf b) hlt).2.2.2 b (le_refl _) (c + 1) e he
            simpa [guardCallees] using this
      | forStatement loc finit te up b =>
          simp [instStmt, guardCalleesList, guardCallees, generateInitialization,
            guardCallees_guard] at he
          rcases he with he | he
          · exact Or.inl he
          · have hlt : sizeOf b < N :=
              lt_of_lt_of_le
                (by simp <;> omega :
                  sizeOf b < sizeOf (Stmt.forStatement loc finit te up b)) hs
            have := (IH (sizeOf b) hlt).2.2.2 b (le_refl _) (c + 1) e he
            simpa [guardCallees] using this
      | ifStatement t conseq alt =>
          have hcq : sizeOf conseq < N :=
            lt_of_lt_of_le
              (by simp <;> omega : sizeOf conseq < sizeOf (Stmt.ifStatement t conseq alt)) hs
          cases alt with
          | none =>
              simp only [instStmt] at he
              simp [guardCalleesList, guardCallees, List.mem_append] at he
              rcases he with he | he
              · -- membership in the guard-shape match of the rebuilt conditional
                rcases hgc : guardCallee
                    (Stmt.ifStatement t (instSolo tm cb c conseq).2 none) with _ | f
                · simp [hgc] at he
                · simp [hgc] at he
                  subst he
                  rcases guardCallee_some _ _ _ _ hgc with ⟨args, hblock, -⟩
                  have hcqeq := instSolo_guard_inv tm cb c conseq _ _ hblock
                  right
                  rw [hcqeq]
                  simp [guardCallees, guardCallee, guardCalleesList]
              · have := (IH (sizeOf conseq) hcq).2.2.1 conseq (le_refl _) c e he
                rcases this with h | h
                · exact Or.inl h
                · right
                  simp [guardCallees, List.mem_append]
                  tauto
          | some a =>
              have ha : sizeOf a < N :=
                lt_of_lt_of_le
                  (by simp <;> omega :
                    sizeOf a < sizeOf (Stmt.ifStatement t conseq (some a))) hs
              simp only [instStmt] at he
              simp [guardCalleesList, guardCallees, List.mem_append,
                guardCallee_alt_some] at he
              rcases he with he | he
              · have := (IH (sizeOf conseq) hcq).2.2.1 conseq (le_refl _) c e he
                rcases this with h | h
                · exact Or.inl h
                · right
                  simp [guardCallees, List.mem_append, guardCallee_alt_some]
                  tauto
              · have := (IH (sizeOf a) ha).2.2.1 a (le_refl _) _ e he
                rcases this with h | h
                · exact Or.inl h
                · right
                  simp [guardCallees, List.mem_append, guardCallee_alt_some]
                  tauto
    have h2 : ∀ l : List Stmt, sizeOf l ≤ N → ∀ c e,
        e ∈ guardCalleesList (instStmts tm cb c l).2 → e = cb ∨ e ∈ guardCalleesList l := by
      intro l hl c e he
      cases l with
      | nil => simp [instStmts, guardCalleesList] at he
      | cons s rest =>
          rw [show (instStmts tm cb c (s :: rest)).2
              = (instStmt tm cb c s).2 ++ (instStmts tm cb (instStmt tm cb c s).1 rest).2 from by
            simp [instStmts]] at he
          rw [guardCalleesList_append] at he
          rcases List.mem_append.mp he with he | he
          · have hss : sizeOf s ≤ N :=
              le_of_lt (lt_of_lt_of_le (by simp <;> omega : sizeOf s < sizeOf (s :: rest)) hl)
            rcases h1 s hss c e he with h | h
            · exact Or.inl h
            · right
              simp [guardCalleesList, List.mem_append]
              tauto
          · have hrest : sizeOf rest < N :=
              lt_of_lt_of_le (by simp <;> omega : sizeOf rest < sizeOf (s :: rest)) hl
            rcases (IH (sizeOf rest) hrest).2.1 rest (le_refl _) _ e he with h | h
            · exact Or.inl h
            · right
              simp [guardCalleesList, List.mem_append]
              tauto
    have h3 : ∀ s : Stmt, sizeOf s ≤ N → ∀ c e,
        e ∈ guardCallees (instSolo tm cb c s).2 → e = cb ∨ e ∈ guardCallees s := by
      intro s hs c e he
      rw [guardCallees_instSolo] at he
      exact h1 s hs c e he
    have h4 : ∀ s : Stmt, sizeOf s ≤ N → ∀ c e,
        e ∈ guardCalleesList (instBody tm cb c s).2 → e = cb ∨ e ∈ guardCallees s := by
      intro s hs c e he
      cases s with
      | blockStatement ss =>
          simp only [instBody] at he
          have hlt : sizeOf ss < N :=
            lt_of_lt_of_le (by simp <;> omega : sizeOf ss < sizeOf (Stmt.blockStatement ss)) hs
          have := (IH (sizeOf ss) hlt).2.1 ss (le_refl _) c e he
          simpa [guardCallees] using this
      | expressionStatement e2 =>
          simp only [instBody] at he
          exact h1 _ hs c e he
      | variableDeclaration k d =>
          simp only [instBody] at he
          exact h1 _ hs c e he
      | ifStatement t conseq alt =>
          simp only [instBody] at he
          exact h1 _ hs c e he
      | breakStatement lb =>
          simp only [instBody] at he
          exact h1 _ hs c e he
      | forStatement loc finit te up b =>
          simp only [instBody] at he
          exact h1 _ hs c e he
      | whileStatement loc te b =>
          simp only [instBody] at he
          exact h1 _ hs c e he
      | doWhileStatement loc te b =>
          simp only [instBody] at he
          exact h1 _ hs c e he
      | functionDeclaration id2 ps b =>
          simp only [instBody] at he
          exact h1 _ hs c e he
    exact ⟨h1, h2, h3, h4⟩

/-- C4: whenever the pass succeeds, a single callback expression exists —
the one produced by the one construction-time `transformOnBreak` call, from
the options alone — and every guard-shaped conditional in the output that was
not already present in the input program has exactly that expression as its
callee: the synthesized callback is built at most once per pass invocation
and reused structurally unchanged in every rewritten loop's guard. -/
theorem c4_single_callback (parse : String → Option Stmt) (opts : AutoBreakOptions)
    (prog : List Stmt) (out : List Stmt)
    (h : autoBreak parse opts prog = Except.ok out) :
    ∃ cb, transformOnBreak parse (opts.onBreak.getD (OnBreak.callable noopSource)) = Except.ok cb
      ∧ ∀ e ∈ guardCalleesList out, e = cb ∨ e ∈ guardCalleesList prog := by
  rcases htr : transformOnBreak parse (opts.onBreak.getD (OnBreak.callable noopSource)) with e | cb
  · simp [autoBreak, htr] at h
  · refine ⟨cb, rfl, ?_⟩
    have hout : out = (instStmts (opts.timeout.getD 2000) cb 0 prog).2 := by
      simp [autoBreak, htr] at h
      exact h.symm
    intro e he
    rw [hout] at he
    exact (callees_bound (opts.timeout.getD 2000) cb (sizeOf prog)).2.1 prog (le_refl _) 0 e he

theorem c4_witness :
    ∃ cb, transformOnBreak parseArrow (optsW.onBreak.getD (OnBreak.callable noopSource))
        = Except.ok cb
      ∧ ∀ e ∈ guardCalleesList outW, e = cb ∨ e ∈ guardCalleesList progW :=
  c4_single_callback parseArrow optsW progW outW
    (by
      simp [autoBreak, transformOnBreak, parseArrow, optsW, onAutoBreakCode, progW, loopW,
        outW, bareW, cbArrow, instStmts, instStmt, instBody, startPosition, mintId]
      exact ⟨rfl, rfl⟩)

end AutoBreak
